import Mathlib

/-!
Shallow embedding of the video interval measurement pipeline of the
segmentation web app (segmentation_web_app repository), together with
theorems settling the frozen claims about it.

Real-valued quantities (Python floats) are modelled by exact rationals;
machine integers by Int/Nat.  Each definition is translated from the
source file named in its doc comment.
-/

namespace SegApp

/-- Python int() applied to a real value: truncation toward zero. -/
def pyTrunc (q : ℚ) : ℤ := if 0 ≤ q then ⌊q⌋ else ⌈q⌉

/-- Python round() to an integer: round half to even (banker's rounding). -/
def pyRound (q : ℚ) : ℤ :=
  let f := ⌊q⌋
  let r := q - f
  if r < 1/2 then f
  else if 1/2 < r then f + 1
  else if f % 2 = 0 then f else f + 1

/-! ## Stability filter (src/app/utils/stability_filter.py) -/

/-- StabilityConfig (stability_filter.py lines 30-37), with its defaults. -/
structure StabilityConfig where
  init_window : ℕ := 10
  init_cv_max : ℚ := 8/100
  win_size : ℕ := 9
  z_thresh : ℚ := 7/2
  rel_tol : ℚ := 1/5
  roc_abs_max : ℚ := 3
  consec_bad_stop : ℕ := 1000000000
  require_baseline : Bool := true
deriving Repr, DecidableEq

/-- The mutable state of SlidingStabilityFilter (stability_filter.py
lines 49-69).  The source keeps the deque and a sorted copy of it;
with exact arithmetic the sorted copy always equals the sorted deque
(insort inserts exactly, and the popped element is found exactly by
bisect_left), so the model keeps only the deque (oldest first) and
sorts on demand. -/
structure FilterState where
  window : List ℚ := []
  warm_n : ℕ := 0
  warm_mean : ℚ := 0
  warm_M2 : ℚ := 0
  baseline : Option ℚ := none
  baseline_mad : Option ℚ := none
  last_valid : Option ℚ := none
  consec_bad : ℕ := 0
  stopped : Bool := false
deriving Repr, DecidableEq

/-- The fresh filter state produced by the constructor. -/
def initState : FilterState := {}

/-- Effective window size: max(3, int(cfg.win_size)) (line 51). -/
def winOf (cfg : StabilityConfig) : ℕ := max 3 cfg.win_size

/-- _median_from_sorted (lines 71-77): middle element of a sorted list,
or the average of the two middle elements for even length. -/
def medianFromSorted (arr : List ℚ) : ℚ :=
  let n := arr.length
  let mid := n / 2
  if n % 2 = 1 then arr.getD mid 0
  else (arr.getD (mid - 1) 0 + arr.getD mid 0) / 2

/-- Sorting in ascending order, as the source's sorted list view. -/
def sortQ (l : List ℚ) : List ℚ := l.insertionSort (· ≤ ·)

/-- _mad_from_window (lines 79-86): median of the sorted absolute
deviations (the source repeats the middle-of-sorted formula inline). -/
def madFromWindow (vals : List ℚ) (median : ℚ) : ℚ :=
  medianFromSorted (sortQ (vals.map (fun v => |v - median|)))

/-- deque append with maxlen (lines 140-147): the oldest element is
evicted when the window is full. -/
def pushWindow (win : ℕ) (w : List ℚ) (v : ℚ) : List ℚ :=
  if w.length = win then w.tail ++ [v] else w ++ [v]

/-- _warm_update (lines 101-106): one Welford step. -/
def warmUpdate (s : FilterState) (x : ℚ) : FilterState :=
  let n := s.warm_n + 1
  let delta := x - s.warm_mean
  let mean := s.warm_mean + delta / (n : ℚ)
  { s with warm_n := n, warm_mean := mean,
           warm_M2 := s.warm_M2 + delta * (x - mean) }

/-- The warm-up CV test of _try_build_baseline (lines 114-118), encoded
without square roots: the source computes std = sqrt(max(var, 0)) and
tests mean > 0 and std/mean <= init_cv_max; for mean > 0 this holds iff
0 <= init_cv_max and max(var, 0) <= (init_cv_max * mean)^2. -/
def cvPass (cfg : StabilityConfig) (mean var : ℚ) : Bool :=
  decide (0 < mean) && decide (0 ≤ cfg.init_cv_max) &&
    decide (max var 0 ≤ (cfg.init_cv_max * mean) ^ 2)

/-- _try_build_baseline (lines 108-129). -/
def tryBuildBaseline (cfg : StabilityConfig) (s : FilterState) : FilterState :=
  if s.baseline.isSome then s
  else if s.warm_n < cfg.init_window then s
  else
    let var := s.warm_M2 / ((max (s.warm_n - 1) 1 : ℕ) : ℚ)
    if cvPass cfg s.warm_mean var then
      if s.window = [] then
        { s with baseline := some s.warm_mean, baseline_mad := some 0 }
      else
        let med := medianFromSorted (sortQ s.window)
        { s with baseline := some med,
                 baseline_mad := some (madFromWindow s.window med) }
    else s

/-- A rejection (lines 166-170 / 176-180 / 184-188): increment
consec_bad, set stopped once the cap is reached, return False. -/
def rejectStep (cfg : StabilityConfig) (s : FilterState) : Bool × FilterState :=
  let cb := s.consec_bad + 1
  (false, { s with consec_bad := cb,
                   stopped := if cfg.consec_bad_stop ≤ cb then true else s.stopped })

/-- Rule 2, relative-to-baseline tolerance (lines 172-180). -/
def relToBaselineOK (cfg : StabilityConfig) (s : FilterState) (v : ℚ) : Bool :=
  match s.baseline with
  | some b => decide (b * (1 - cfg.rel_tol) ≤ v) && decide (v ≤ b * (1 + cfg.rel_tol))
  | none => true

/-- Rule 3, rate-of-change cap against the last accepted value
(lines 182-188). -/
def rocOK (cfg : StabilityConfig) (s : FilterState) (v : ℚ) : Bool :=
  match s.last_valid with
  | some lv => decide (|v - lv| ≤ cfg.roc_abs_max)
  | none => true

/-- The three rejection rules and the acceptance step of add
(lines 159-193), run on the state whose window already holds v. -/
def runChecks (cfg : StabilityConfig) (s : FilterState) (v : ℚ) : Bool × FilterState :=
  let median := medianFromSorted (sortQ s.window)
  let mad := madFromWindow s.window median
  let sigma := max (14826/10000 * mad) (1/1000000)
  if cfg.z_thresh < |v - median| / sigma then rejectStep cfg s
  else if relToBaselineOK cfg s v then
    if rocOK cfg s v then (true, { s with consec_bad := 0, last_valid := some v })
    else rejectStep cfg s
  else rejectStep cfg s

/-- SlidingStabilityFilter.add (lines 131-193). -/
def add (cfg : StabilityConfig) (s : FilterState) (v : ℚ) : Bool × FilterState :=
  if s.stopped then (false, s)
  else
    let s1 := { s with window := pushWindow (winOf cfg) s.window v }
    if s1.baseline.isNone then
      let s2 := tryBuildBaseline cfg (warmUpdate s1 v)
      if cfg.require_baseline then
        (true, { s2 with last_valid := some v })
      else runChecks cfg s2 v
    else runChecks cfg s1 v

/-- Feeding a sequence of measurements, one add call per value. -/
def addList (cfg : StabilityConfig) (s : FilterState) (vs : List ℚ) : FilterState :=
  vs.foldl (fun st v => (add cfg st v).2) s

end SegApp

namespace SegApp

/-! ### Supporting lemmas about the stability filter -/

lemma runChecks_frame (cfg : StabilityConfig) (t : FilterState) (v : ℚ) :
    ((runChecks cfg t v).2).window = t.window ∧
    ((runChecks cfg t v).2).baseline = t.baseline ∧
    ((runChecks cfg t v).2).baseline_mad = t.baseline_mad ∧
    ((runChecks cfg t v).2).warm_n = t.warm_n ∧
    ((runChecks cfg t v).2).warm_mean = t.warm_mean ∧
    ((runChecks cfg t v).2).warm_M2 = t.warm_M2 := by
  simp only [runChecks, rejectStep]
  split_ifs <;> simp_all

lemma runChecks_accept (cfg : StabilityConfig) (t : FilterState) (v : ℚ)
    (h : (runChecks cfg t v).1 = true) :
    (runChecks cfg t v).2 = { t with consec_bad := 0, last_valid := some v } := by
  simp only [runChecks, rejectStep] at h ⊢
  split_ifs at h ⊢
  simp_all

lemma runChecks_reject (cfg : StabilityConfig) (t : FilterState) (v : ℚ)
    (h : (runChecks cfg t v).1 = false) :
    (runChecks cfg t v).2 =
      { t with consec_bad := t.consec_bad + 1,
               stopped := if cfg.consec_bad_stop ≤ t.consec_bad + 1 then true
                          else t.stopped } := by
  simp only [runChecks, rejectStep] at h ⊢
  split_ifs at h ⊢ <;> simp_all

end SegApp

namespace SegApp

@[simp] lemma warmUpdate_window (s : FilterState) (x : ℚ) :
    (warmUpdate s x).window = s.window := rfl

@[simp] lemma warmUpdate_baseline (s : FilterState) (x : ℚ) :
    (warmUpdate s x).baseline = s.baseline := rfl

@[simp] lemma warmUpdate_baseline_mad (s : FilterState) (x : ℚ) :
    (warmUpdate s x).baseline_mad = s.baseline_mad := rfl

@[simp] lemma warmUpdate_last_valid (s : FilterState) (x : ℚ) :
    (warmUpdate s x).last_valid = s.last_valid := rfl

@[simp] lemma warmUpdate_consec_bad (s : FilterState) (x : ℚ) :
    (warmUpdate s x).consec_bad = s.consec_bad := rfl

@[simp] lemma warmUpdate_stopped (s : FilterState) (x : ℚ) :
    (warmUpdate s x).stopped = s.stopped := rfl

@[simp] lemma warmUpdate_warm_n (s : FilterState) (x : ℚ) :
    (warmUpdate s x).warm_n = s.warm_n + 1 := rfl

@[simp] lemma tryBuild_window (cfg : StabilityConfig) (t : FilterState) :
    (tryBuildBaseline cfg t).window = t.window := by
  simp only [tryBuildBaseline]; split_ifs <;> rfl

@[simp] lemma tryBuild_warm_n (cfg : StabilityConfig) (t : FilterState) :
    (tryBuildBaseline cfg t).warm_n = t.warm_n := by
  simp only [tryBuildBaseline]; split_ifs <;> rfl

@[simp] lemma tryBuild_warm_mean (cfg : StabilityConfig) (t : FilterState) :
    (tryBuildBaseline cfg t).warm_mean = t.warm_mean := by
  simp only [tryBuildBaseline]; split_ifs <;> rfl

@[simp] lemma tryBuild_warm_M2 (cfg : StabilityConfig) (t : FilterState) :
    (tryBuildBaseline cfg t).warm_M2 = t.warm_M2 := by
  simp only [tryBuildBaseline]; split_ifs <;> rfl

@[simp] lemma tryBuild_last_valid (cfg : StabilityConfig) (t : FilterState) :
    (tryBuildBaseline cfg t).last_valid = t.last_valid := by
  simp only [tryBuildBaseline]; split_ifs <;> rfl

@[simp] lemma tryBuild_consec_bad (cfg : StabilityConfig) (t : FilterState) :
    (tryBuildBaseline cfg t).consec_bad = t.consec_bad := by
  simp only [tryBuildBaseline]; split_ifs <;> rfl

@[simp] lemma tryBuild_stopped (cfg : StabilityConfig) (t : FilterState) :
    (tryBuildBaseline cfg t).stopped = t.stopped := by
  simp only [tryBuildBaseline]; split_ifs <;> rfl

/-- Case analysis on the control flow of add when the filter is not
stopped: warm-up acceptance, warm-up fall-through, or steady state. -/
lemma add_cases (cfg : StabilityConfig) (s : FilterState) (v : ℚ)
    (hs : s.stopped = false) :
    (s.baseline = none ∧ cfg.require_baseline = true ∧
      add cfg s v = (true,
        { tryBuildBaseline cfg
            (warmUpdate { s with window := pushWindow (winOf cfg) s.window v } v)
          with last_valid := some v })) ∨
    (s.baseline = none ∧ cfg.require_baseline = false ∧
      add cfg s v = runChecks cfg
        (tryBuildBaseline cfg
          (warmUpdate { s with window := pushWindow (winOf cfg) s.window v } v)) v) ∨
    (∃ b, s.baseline = some b ∧
      add cfg s v = runChecks cfg
        { s with window := pushWindow (winOf cfg) s.window v } v) := by
  cases hb : s.baseline with
  | none =>
    cases hr : cfg.require_baseline with
    | true => exact Or.inl ⟨rfl, rfl, by simp [add, hs, hb, hr]⟩
    | false => exact Or.inr (Or.inl ⟨rfl, rfl, by simp [add, hs, hb, hr]⟩)
  | some b => exact Or.inr (Or.inr ⟨b, rfl, by simp [add, hs, hb]⟩)

end SegApp

namespace SegApp

attribute [local semireducible] Rat.add Rat.mul Rat.inv Rat.sub

/-- A small configuration used for concrete runs: one warm-up sample,
a permissive CV bound, window size 3. -/
def cfgSmall : StabilityConfig :=
  { init_window := 1, init_cv_max := 1, win_size := 3 }

/-- The state after feeding 10 to a fresh filter under cfgSmall: the
baseline 10 is established immediately. -/
def oneTenState : FilterState := (add cfgSmall initState 10).2

/-- C2.  Stop is absorbing: a stopped filter returns false and is left
bit-for-bit unchanged by add, and every rejection while not stopped
increments consecutive_bad and sets stopped exactly when the count
reaches consec_bad_stop. -/
theorem stability_stop_absorbing (cfg : StabilityConfig) (s : FilterState) (v : ℚ) :
    (s.stopped = true → add cfg s v = (false, s)) ∧
    (s.stopped = false → (add cfg s v).1 = false →
      ((add cfg s v).2).consec_bad = s.consec_bad + 1 ∧
      (((add cfg s v).2).stopped = true ↔ cfg.consec_bad_stop ≤ s.consec_bad + 1)) := by
  refine ⟨fun h => by simp [add, h], fun hs hf => ?_⟩
  have key : ∀ t : FilterState, add cfg s v = runChecks cfg t v →
      t.consec_bad = s.consec_bad → t.stopped = false →
      ((add cfg s v).2).consec_bad = s.consec_bad + 1 ∧
      (((add cfg s v).2).stopped = true ↔ cfg.consec_bad_stop ≤ s.consec_bad + 1) := by
    intro t heq hcb hst
    rw [heq] at hf ⊢
    rw [runChecks_reject cfg t v hf]
    refine ⟨by simp [hcb], ?_⟩
    simp only [hcb, hst]
    split_ifs with hle <;> simp [hle]
  rcases add_cases cfg s v hs with ⟨hb, hr, heq⟩ | ⟨hb, hr, heq⟩ | ⟨b, hb, heq⟩
  · rw [heq] at hf; simp at hf
  · exact key _ heq (by simp) (by simp [hs])
  · exact key _ heq (by simp) (by simp [hs])

/-- C2 witness: a stopped filter is unchanged; with consec_bad_stop = 1
a single rejection sets stopped. -/
theorem stability_stop_absorbing_witness :
    add cfgSmall { initState with stopped := true } 5 =
      (false, { initState with stopped := true }) ∧
    ((add { cfgSmall with consec_bad_stop := 1 } oneTenState 20).2).consec_bad =
      oneTenState.consec_bad + 1 := by
  constructor
  · exact (stability_stop_absorbing cfgSmall { initState with stopped := true } 5).1 rfl
  · exact ((stability_stop_absorbing { cfgSmall with consec_bad_stop := 1 }
      oneTenState 20).2 (by decide) (by decide)).1

end SegApp

namespace SegApp

attribute [local semireducible] Rat.add Rat.mul Rat.inv Rat.sub

/-- C3 counterexample.  Under cfgSmall the filter establishes baseline 10
from the first value; the second value 20 is rejected by the
relative-to-baseline rule, yet it has entered the sliding window: the
window grows from [10] to [10, 20] on a rejecting add call. -/
theorem stability_reject_mutates_window :
    (add cfgSmall oneTenState 20).1 = false ∧
    oneTenState.stopped = false ∧
    oneTenState.window = [10] ∧
    ((add cfgSmall oneTenState 20).2).window = [10, 20] := by
  exact ⟨by decide, by decide, by decide, by decide⟩

/-- C3 amended.  An add call on a non-stopped filter always pushes the
value into the sliding window (accepted or not).  On acceptance,
consecutive_bad resets to 0 and last_valid becomes the value (the
consecutive_bad reset uses that a warm-up state under require_baseline
has consecutive_bad = 0, which holds for every reachable state).  On a
rejection with an established baseline, last_valid, baseline,
baseline_mad and the warm-up statistics are unchanged and only
consecutive_bad (and possibly stopped) move. -/
theorem stability_frame_effect (cfg : StabilityConfig) (s : FilterState) (v : ℚ)
    (hs : s.stopped = false) :
    ((add cfg s v).2).window = pushWindow (winOf cfg) s.window v ∧
    ((add cfg s v).1 = true →
      (cfg.require_baseline = true → s.baseline = none → s.consec_bad = 0) →
      ((add cfg s v).2).consec_bad = 0 ∧ ((add cfg s v).2).last_valid = some v) ∧
    (∀ b, s.baseline = some b → (add cfg s v).1 = false →
      ((add cfg s v).2).last_valid = s.last_valid ∧
      ((add cfg s v).2).consec_bad = s.consec_bad + 1 ∧
      ((add cfg s v).2).baseline = some b ∧
      ((add cfg s v).2).baseline_mad = s.baseline_mad ∧
      ((add cfg s v).2).warm_n = s.warm_n ∧
      ((add cfg s v).2).warm_mean = s.warm_mean ∧
      ((add cfg s v).2).warm_M2 = s.warm_M2) := by
  rcases add_cases cfg s v hs with ⟨hb, hr, heq⟩ | ⟨hb, hr, heq⟩ | ⟨b0, hb, heq⟩
  · refine ⟨by rw [heq]; simp, fun _ hreach => ?_, fun b hbb => ?_⟩
    · rw [heq]; simp [hreach hr hb]
    · rw [hb] at hbb; cases hbb
  · refine ⟨?_, fun hacc _ => ?_, fun b hbb => ?_⟩
    · rw [heq]; have := (runChecks_frame cfg
        (tryBuildBaseline cfg
          (warmUpdate { s with window := pushWindow (winOf cfg) s.window v } v)) v).1
      rw [this]; simp
    · rw [heq] at hacc ⊢
      rw [runChecks_accept _ _ _ hacc]; simp
    · rw [hb] at hbb; cases hbb
  · refine ⟨?_, fun hacc _ => ?_, fun b hbb hrej => ?_⟩
    · rw [heq]; have := (runChecks_frame cfg
        { s with window := pushWindow (winOf cfg) s.window v } v).1
      rw [this]
    · rw [heq] at hacc ⊢
      rw [runChecks_accept _ _ _ hacc]; simp
    · rw [heq] at hrej ⊢
      rw [runChecks_reject _ _ _ hrej]
      refine ⟨by simp, by simp, ?_, by simp, by simp, by simp, by simp⟩
      simp only [hb] at hbb ⊢
      simpa using hbb

/-- C3 witness: the amended theorem applied at oneTenState with a
rejected value 20 and an accepted value 10. -/
theorem stability_frame_effect_witness :
    ((add cfgSmall oneTenState 20).2).window =
      pushWindow (winOf cfgSmall) oneTenState.window 20 ∧
    ((add cfgSmall oneTenState 20).2).last_valid = oneTenState.last_valid ∧
    ((add cfgSmall oneTenState 10).2).consec_bad = 0 := by
  refine ⟨(stability_frame_effect cfgSmall oneTenState 20 (by decide)).1, ?_, ?_⟩
  · exact (((stability_frame_effect cfgSmall oneTenState 20 (by decide)).2.2)
      10 (by decide) (by decide)).1
  · exact ((stability_frame_effect cfgSmall oneTenState 10 (by decide)).2.1
      (by decide) (fun _ hnone => absurd hnone (by decide))).1

end SegApp

namespace SegApp

attribute [local semireducible] Rat.add Rat.mul Rat.inv Rat.sub

/-- One step of the source's Welford update on a (count, mean, M2)
accumulator. -/
def welfordStep (acc : ℕ × ℚ × ℚ) (x : ℚ) : ℕ × ℚ × ℚ :=
  let n := acc.1 + 1
  let delta := x - acc.2.1
  let mean := acc.2.1 + delta / (n : ℚ)
  (n, mean, acc.2.2 + delta * (x - mean))

/-- The Welford statistics (count, mean, M2) after feeding a list. -/
def welfordStats (vs : List ℚ) : ℕ × ℚ × ℚ := vs.foldl welfordStep (0, 0, 0)

lemma pushWindow_ne_nil (win : ℕ) (w : List ℚ) (v : ℚ) :
    pushWindow win w v ≠ [] := by
  unfold pushWindow; split_ifs <;> simp

lemma tryBuild_noop (cfg : StabilityConfig) (t : FilterState)
    (h : t.warm_n < cfg.init_window) : tryBuildBaseline cfg t = t := by
  simp only [tryBuildBaseline]
  split_ifs <;> rfl

lemma tryBuild_eq (cfg : StabilityConfig) (t : FilterState)
    (hb : t.baseline = none) (hw : t.window ≠ []) :
    tryBuildBaseline cfg t =
      if cfg.init_window ≤ t.warm_n ∧
         cvPass cfg t.warm_mean
           (t.warm_M2 / ((max (t.warm_n - 1) 1 : ℕ) : ℚ)) = true
      then { t with
             baseline := some (medianFromSorted (sortQ t.window)),
             baseline_mad :=
               some (madFromWindow t.window (medianFromSorted (sortQ t.window))) }
      else t := by
  by_cases h1 : t.warm_n < cfg.init_window
  · rw [tryBuild_noop cfg t h1, if_neg]
    intro hcontra
    exact absurd hcontra.1 (by omega)
  · by_cases h2 : cvPass cfg t.warm_mean
        (t.warm_M2 / ((max (t.warm_n - 1) 1 : ℕ) : ℚ)) = true
    · rw [if_pos ⟨by omega, h2⟩]
      simp only [tryBuildBaseline]
      rw [if_neg (show ¬ t.baseline.isSome = true by simp [hb])]
      rw [if_neg h1, if_pos h2, if_neg hw]
    · rw [if_neg (show ¬ _ by intro hc; exact h2 hc.2)]
      simp only [tryBuildBaseline]
      rw [if_neg (show ¬ t.baseline.isSome = true by simp [hb])]
      rw [if_neg h1, if_neg h2]

lemma add_warm_step (cfg : StabilityConfig) (s : FilterState) (v : ℚ)
    (hs : s.stopped = false) (hb : s.baseline = none)
    (hreq : cfg.require_baseline = true) (hlt : s.warm_n + 1 < cfg.init_window) :
    add cfg s v = (true,
      { s with window := pushWindow (winOf cfg) s.window v,
               warm_n := s.warm_n + 1,
               warm_mean := (welfordStep (s.warm_n, s.warm_mean, s.warm_M2) v).2.1,
               warm_M2 := (welfordStep (s.warm_n, s.warm_mean, s.warm_M2) v).2.2,
               last_valid := some v }) := by
  rcases add_cases cfg s v hs with ⟨_, _, heq⟩ | ⟨_, hr, _⟩ | ⟨b0, hbb, _⟩
  · rw [heq]
    rw [tryBuild_noop cfg _ (by simpa using hlt)]
    simp [warmUpdate, welfordStep]
  · rw [hreq] at hr; cases hr
  · rw [hb] at hbb; cases hbb

lemma addList_warm (cfg : StabilityConfig) (hreq : cfg.require_baseline = true) :
    ∀ (vs : List ℚ) (s : FilterState), s.stopped = false → s.baseline = none →
      s.warm_n + vs.length < cfg.init_window →
      addList cfg s vs =
        { s with
          window := vs.foldl (pushWindow (winOf cfg)) s.window,
          warm_n := (vs.foldl welfordStep (s.warm_n, s.warm_mean, s.warm_M2)).1,
          warm_mean :=
            (vs.foldl welfordStep (s.warm_n, s.warm_mean, s.warm_M2)).2.1,
          warm_M2 :=
            (vs.foldl welfordStep (s.warm_n, s.warm_mean, s.warm_M2)).2.2,
          last_valid := vs.foldl (fun _ v => some v) s.last_valid } := by
  intro vs
  induction vs with
  | nil => intro s _ _ _; simp [addList]
  | cons v vs ih =>
    intro s hs hb hlt
    have hstep := add_warm_step cfg s v hs hb hreq (by simp at hlt; omega)
    have : addList cfg s (v :: vs) = addList cfg (add cfg s v).2 vs := by
      simp [addList]
    rw [this, hstep]
    rw [ih _ (by simp [hs]) (by simp [hb]) (by simp at hlt ⊢; omega)]
    simp [welfordStep]

lemma pushWindow_eq_drop (win : ℕ) (w : List ℚ) (v : ℚ)
    (hwin : 0 < win) (hw : w.length ≤ win) :
    pushWindow win w v = (w ++ [v]).drop (w.length + 1 - win) := by
  unfold pushWindow
  split_ifs with h
  · have hone : w.length + 1 - win = 1 := by omega
    rw [hone, List.drop_append_of_le_length (by omega), List.drop_one]
  · have hzero : w.length + 1 - win = 0 := by omega
    simp [hzero]

lemma foldl_pushWindow_drop (win : ℕ) (hwin : 0 < win) :
    ∀ (vs w : List ℚ), w.length ≤ win →
      vs.foldl (pushWindow win) w = (w ++ vs).drop (w.length + vs.length - win) := by
  intro vs
  induction vs with
  | nil =>
    intro w hw
    simp [Nat.sub_eq_zero_of_le hw]
  | cons v vs ih =>
    intro w hw
    rw [List.foldl_cons, pushWindow_eq_drop win w v hwin hw]
    have hlen : ((w ++ [v]).drop (w.length + 1 - win)).length ≤ win := by
      simp [List.length_drop]; omega
    rw [ih _ hlen]
    have e1 : (w ++ [v]).drop (w.length + 1 - win) ++ vs =
        ((w ++ [v]) ++ vs).drop (w.length + 1 - win) :=
      (List.drop_append_of_le_length (by simp)).symm
    rw [e1, List.drop_drop]
    have e2 : (w ++ [v]) ++ vs = w ++ v :: vs := by simp
    rw [e2]
    congr 1
    simp [List.length_drop]
    omega

end SegApp

namespace SegApp

attribute [local semireducible] Rat.add Rat.mul Rat.inv Rat.sub

lemma welford_count : ∀ (vs : List ℚ) (a : ℕ × ℚ × ℚ),
    (vs.foldl welfordStep a).1 = a.1 + vs.length := by
  intro vs
  induction vs with
  | nil => intro a; simp
  | cons v vs ih =>
    intro a
    rw [List.foldl_cons, ih]
    simp [welfordStep]
    omega

/-- The ten warm-up values of the C1 counterexample: 10.0, 10.1, ..., 10.9. -/
def rampTen : List ℚ :=
  [10, 101/10, 102/10, 103/10, 104/10, 105/10, 106/10, 107/10, 108/10, 109/10]

/-- C1 counterexample.  Under the default configuration (init_window = 10,
win_size = 9, init_cv_max = 0.08) the ten values 10.0, 10.1, ..., 10.9 have
an admissible coefficient of variation, so feeding them establishes a
baseline — but the baseline is 10.5, the median of the 9-element sliding
window, not 10.45, the median of the ten fed values. -/
theorem baseline_median_counterexample :
    ({} : StabilityConfig).init_window = 10 ∧
    rampTen.length = 10 ∧
    cvPass {} (welfordStats rampTen).2.1
      ((welfordStats rampTen).2.2 / ((max (rampTen.length - 1) 1 : ℕ) : ℚ)) = true ∧
    (addList {} initState rampTen).baseline = some (21/2) ∧
    medianFromSorted (sortQ rampTen) = 209/20 ∧
    ((21 : ℚ)/2) ≠ 209/20 := by
  refine ⟨by decide, by decide, by decide, by decide, by decide, by decide⟩

end SegApp

namespace SegApp

attribute [local semireducible] Rat.add Rat.mul Rat.inv Rat.sub

/-- C1 amended.  Baseline establishment: (1) once established, the
baseline persists through every later add; (2) an add on a warm
(baseline-free) filter establishes the baseline exactly when the warm-up
count reaches init_window and the Welford CV test passes, and then
baseline = median of the current sliding window (which now contains the
new value) and baseline_mad = MAD of that window; (3) feeding
init_window values with admissible CV into a fresh filter establishes a
baseline equal to the median of the sliding window, i.e. of the last
min(win_size, init_window) fed values — not of all fed values. -/
theorem stability_baseline_rule :
    (∀ (cfg : StabilityConfig) (s : FilterState) (v : ℚ) (b : ℚ),
      s.baseline = some b → ((add cfg s v).2).baseline = some b) ∧
    (∀ (cfg : StabilityConfig) (s : FilterState) (v : ℚ),
      s.stopped = false → s.baseline = none →
      (((add cfg s v).2).baseline, ((add cfg s v).2).baseline_mad) =
        (if cfg.init_window ≤ s.warm_n + 1 ∧
            cvPass cfg (welfordStep (s.warm_n, s.warm_mean, s.warm_M2) v).2.1
              ((welfordStep (s.warm_n, s.warm_mean, s.warm_M2) v).2.2 /
                ((max s.warm_n 1 : ℕ) : ℚ)) = true
         then (some (medianFromSorted (sortQ (pushWindow (winOf cfg) s.window v))),
               some (madFromWindow (pushWindow (winOf cfg) s.window v)
                 (medianFromSorted (sortQ (pushWindow (winOf cfg) s.window v)))))
         else (none, s.baseline_mad))) ∧
    (∀ (cfg : StabilityConfig) (vs : List ℚ),
      cfg.require_baseline = true → 1 ≤ cfg.init_window →
      vs.length = cfg.init_window →
      cvPass cfg (welfordStats vs).2.1
        ((welfordStats vs).2.2 / ((max (vs.length - 1) 1 : ℕ) : ℚ)) = true →
      (addList cfg initState vs).baseline =
        some (medianFromSorted (sortQ (vs.drop (vs.length - winOf cfg))))) := by
  have persist : ∀ (cfg : StabilityConfig) (s : FilterState) (v : ℚ) (b : ℚ),
      s.baseline = some b → ((add cfg s v).2).baseline = some b := by
    intro cfg s v b hb
    cases hstop : s.stopped with
    | true => simp [add, hstop, hb]
    | false =>
      rcases add_cases cfg s v hstop with ⟨hb0, _, _⟩ | ⟨hb0, _, _⟩ | ⟨b0, hb0, heq⟩
      · rw [hb] at hb0; cases hb0
      · rw [hb] at hb0; cases hb0
      · rw [heq, (runChecks_frame cfg _ v).2.1]
        simpa using hb
  have step : ∀ (cfg : StabilityConfig) (s : FilterState) (v : ℚ),
      s.stopped = false → s.baseline = none →
      (((add cfg s v).2).baseline, ((add cfg s v).2).baseline_mad) =
        (if cfg.init_window ≤ s.warm_n + 1 ∧
            cvPass cfg (welfordStep (s.warm_n, s.warm_mean, s.warm_M2) v).2.1
              ((welfordStep (s.warm_n, s.warm_mean, s.warm_M2) v).2.2 /
                ((max s.warm_n 1 : ℕ) : ℚ)) = true
         then (some (medianFromSorted (sortQ (pushWindow (winOf cfg) s.window v))),
               some (madFromWindow (pushWindow (winOf cfg) s.window v)
                 (medianFromSorted (sortQ (pushWindow (winOf cfg) s.window v)))))
         else (none, s.baseline_mad)) := by
    intro cfg s v hs hb
    have hwnil : pushWindow (winOf cfg) s.window v ≠ [] := pushWindow_ne_nil _ _ _
    have hTB := tryBuild_eq cfg
      (warmUpdate { s with window := pushWindow (winOf cfg) s.window v } v)
      (by simp [hb]) (by simpa using hwnil)
    have key :
        (((tryBuildBaseline cfg
            (warmUpdate { s with window := pushWindow (winOf cfg) s.window v } v)).baseline,
          (tryBuildBaseline cfg
            (warmUpdate { s with window := pushWindow (winOf cfg) s.window v } v)).baseline_mad)) =
        (if cfg.init_window ≤ s.warm_n + 1 ∧
            cvPass cfg (welfordStep (s.warm_n, s.warm_mean, s.warm_M2) v).2.1
              ((welfordStep (s.warm_n, s.warm_mean, s.warm_M2) v).2.2 /
                ((max s.warm_n 1 : ℕ) : ℚ)) = true
         then (some (medianFromSorted (sortQ (pushWindow (winOf cfg) s.window v))),
               some (madFromWindow (pushWindow (winOf cfg) s.window v)
                 (medianFromSorted (sortQ (pushWindow (winOf cfg) s.window v)))))
         else (none, s.baseline_mad)) := by
      have heqn : (warmUpdate
          { s with window := pushWindow (winOf cfg) s.window v } v).warm_n =
          s.warm_n + 1 := rfl
      have heqm : (warmUpdate
          { s with window := pushWindow (winOf cfg) s.window v } v).warm_mean =
          (welfordStep (s.warm_n, s.warm_mean, s.warm_M2) v).2.1 := rfl
      have heqM : (warmUpdate
          { s with window := pushWindow (winOf cfg) s.window v } v).warm_M2 =
          (welfordStep (s.warm_n, s.warm_mean, s.warm_M2) v).2.2 := rfl
      simp only [heqn, heqm, heqM, Nat.add_sub_cancel] at hTB
      rw [hTB]
      split_ifs with hc
      · simp
      · simp [hb]
    rcases add_cases cfg s v hs with ⟨_, hr, heq⟩ | ⟨_, hr, heq⟩ | ⟨b0, hbb, _⟩
    · rw [heq]
      simpa using key
    · rw [heq, (runChecks_frame cfg _ v).2.1, (runChecks_frame cfg _ v).2.2.1]
      exact key
    · rw [hb] at hbb; cases hbb
  refine ⟨persist, step, ?_⟩
  intro cfg vs hreq h1 hlen hcv
  have hne : vs ≠ [] := by
    intro e; rw [e] at hlen; simp at hlen; omega
  have hsplit : vs.dropLast ++ [vs.getLast hne] = vs :=
    List.dropLast_append_getLast hne
  have happ : addList cfg initState vs =
      (add cfg (addList cfg initState vs.dropLast) (vs.getLast hne)).2 := by
    conv_lhs => rw [← hsplit]
    simp [addList, List.foldl_append]
  have hyslen : vs.dropLast.length = vs.length - 1 := by
    simp [List.length_dropLast]
  have hwarm := addList_warm cfg hreq vs.dropLast initState rfl rfl
    (by simp [initState, hyslen]; omega)
  set s9 := addList cfg initState vs.dropLast with hs9
  have hs9stop : s9.stopped = false := by rw [hwarm]; rfl
  have hs9base : s9.baseline = none := by rw [hwarm]; rfl
  have hs9n : s9.warm_n = vs.length - 1 := by
    rw [hwarm]
    simpa [initState] using (welford_count vs.dropLast (0, 0, 0)).trans (by simp [hyslen])
  have hstats : welfordStep (s9.warm_n, s9.warm_mean, s9.warm_M2) (vs.getLast hne) =
      welfordStats vs := by
    have h2 : s9.warm_mean = (vs.dropLast.foldl welfordStep (0, 0, 0)).2.1 := by
      rw [hwarm]; rfl
    have h3 : s9.warm_M2 = (vs.dropLast.foldl welfordStep (0, 0, 0)).2.2 := by
      rw [hwarm]; rfl
    have h0 : s9.warm_n = (vs.dropLast.foldl welfordStep (0, 0, 0)).1 := by
      rw [hwarm]; rfl
    rw [h0, h2, h3]
    rw [show ((vs.dropLast.foldl welfordStep (0, 0, 0)).1,
          (vs.dropLast.foldl welfordStep (0, 0, 0)).2.1,
          (vs.dropLast.foldl welfordStep (0, 0, 0)).2.2) =
        vs.dropLast.foldl welfordStep (0, 0, 0) from rfl]
    rw [welfordStats]
    conv_rhs => rw [← hsplit]
    rw [List.foldl_append]
    simp
  have hwin9 : s9.window = vs.dropLast.foldl (pushWindow (winOf cfg)) [] := by
    rw [hwarm]; rfl
  rw [happ]
  rcases add_cases cfg s9 (vs.getLast hne) hs9stop with
    ⟨_, _, heq⟩ | ⟨_, hr, _⟩ | ⟨b0, hbb, _⟩
  · rw [heq]
    have hwnil := pushWindow_ne_nil (winOf cfg) s9.window (vs.getLast hne)
    have hTB := tryBuild_eq cfg
      (warmUpdate { s9 with window := pushWindow (winOf cfg) s9.window (vs.getLast hne) }
        (vs.getLast hne))
      (by simp [hs9base]) (by simpa using hwnil)
    have hcond : cfg.init_window ≤
        (warmUpdate { s9 with
          window := pushWindow (winOf cfg) s9.window (vs.getLast hne) }
          (vs.getLast hne)).warm_n ∧
        cvPass cfg
          (warmUpdate { s9 with
            window := pushWindow (winOf cfg) s9.window (vs.getLast hne) }
            (vs.getLast hne)).warm_mean
          ((warmUpdate { s9 with
            window := pushWindow (winOf cfg) s9.window (vs.getLast hne) }
            (vs.getLast hne)).warm_M2 /
            ((max ((warmUpdate { s9 with
              window := pushWindow (winOf cfg) s9.window (vs.getLast hne) }
              (vs.getLast hne)).warm_n - 1) 1 : ℕ) : ℚ)) = true := by
      have hn : (warmUpdate { s9 with
          window := pushWindow (winOf cfg) s9.window (vs.getLast hne) }
          (vs.getLast hne)).warm_n = vs.length := by
        simp [warmUpdate, hs9n]
        omega
      constructor
      · rw [hn]; omega
      · have hm : (warmUpdate { s9 with
            window := pushWindow (winOf cfg) s9.window (vs.getLast hne) }
            (vs.getLast hne)).warm_mean = (welfordStats vs).2.1 := by
          rw [← hstats]; rfl
        have hM : (warmUpdate { s9 with
            window := pushWindow (winOf cfg) s9.window (vs.getLast hne) }
            (vs.getLast hne)).warm_M2 = (welfordStats vs).2.2 := by
          rw [← hstats]; rfl
        rw [hm, hM, hn]
        exact hcv
    rw [hTB, if_pos hcond]
    simp only []
    have hfin : pushWindow (winOf cfg) s9.window (vs.getLast hne) =
        vs.drop (vs.length - winOf cfg) := by
      rw [hwin9]
      have hfold : (vs.dropLast.foldl (pushWindow (winOf cfg)) []).length ≤ winOf cfg := by
        rw [foldl_pushWindow_drop (winOf cfg) (by simp [winOf]) vs.dropLast [] (by simp)]
        simp [List.length_drop]
        omega
      rw [show pushWindow (winOf cfg) (vs.dropLast.foldl (pushWindow (winOf cfg)) [])
            (vs.getLast hne) =
          [vs.getLast hne].foldl (pushWindow (winOf cfg))
            (vs.dropLast.foldl (pushWindow (winOf cfg)) []) from rfl]
      rw [← List.foldl_append, hsplit]
      rw [foldl_pushWindow_drop (winOf cfg) (by simp [winOf]) vs [] (by simp)]
      simp
    rw [hfin]
    simp
  · rw [hreq] at hr; cases hr
  · rw [hs9base] at hbb; cases hbb

end SegApp

namespace SegApp

attribute [local semireducible] Rat.add Rat.mul Rat.inv Rat.sub

/-- C1 witness: the baseline rule applied at concrete inputs — baseline
persistence on oneTenState, the one-step establishment rule on a fresh
filter under cfgSmall, and the run-level rule on the ten ramp values
under the default configuration. -/
theorem stability_baseline_rule_witness :
    ((add cfgSmall oneTenState 12).2).baseline = some 10 ∧
    (((add cfgSmall initState 10).2).baseline,
      ((add cfgSmall initState 10).2).baseline_mad) = (some 10, some 0) ∧
    (addList {} initState rampTen).baseline =
      some (medianFromSorted
        (sortQ (rampTen.drop (rampTen.length - winOf ({} : StabilityConfig))))) := by
  refine ⟨?_, ?_, ?_⟩
  · exact stability_baseline_rule.1 cfgSmall oneTenState 12 10 (by decide)
  · rw [stability_baseline_rule.2.1 cfgSmall initState 10 rfl rfl]
    decide
  · exact stability_baseline_rule.2.2 {} rampTen rfl (by decide) (by decide) (by decide)

end SegApp

namespace SegApp

attribute [local semireducible] Rat.add Rat.mul Rat.inv Rat.sub

/-! ## Interval orchestration (src/app/processing/video_processor.py) -/

/-- Maximum of a list of rationals (np.max over a nonempty array). -/
def maxQ : List ℚ → ℚ
  | [] => 0
  | [x] => x
  | x :: y :: t => max x (maxQ (y :: t))

/-- np.argmax: first index attaining the maximum. -/
def argmaxIdx : List ℚ → ℕ
  | [] => 0
  | [_] => 0
  | x :: y :: t => if x < maxQ (y :: t) then argmaxIdx (y :: t) + 1 else 0

lemma maxQ_mem : ∀ (l : List ℚ), l ≠ [] → maxQ l ∈ l := by
  intro l
  induction l with
  | nil => intro h; cases h rfl
  | cons x xs ih =>
    intro _
    cases xs with
    | nil => simp [maxQ]
    | cons y t =>
      rcases max_cases x (maxQ (y :: t)) with ⟨he, _⟩ | ⟨he, _⟩
      · simp [maxQ, he]
      · have := ih (by simp)
        simp [maxQ, he]
        right
        simpa using this

lemma le_maxQ : ∀ (l : List ℚ) (y : ℚ), y ∈ l → y ≤ maxQ l := by
  intro l
  induction l with
  | nil => intro y h; cases h
  | cons x xs ih =>
    intro z hz
    cases xs with
    | nil =>
      simp at hz
      simp [maxQ, hz]
    | cons y t =>
      rcases List.mem_cons.mp hz with hzx | hzt
      · simp [maxQ, hzx]
      · have := ih z hzt
        simp [maxQ]
        right
        exact this

lemma argmaxIdx_lt : ∀ (l : List ℚ), l ≠ [] → argmaxIdx l < l.length := by
  intro l
  induction l with
  | nil => intro h; cases h rfl
  | cons x xs ih =>
    intro _
    cases xs with
    | nil => simp [argmaxIdx]
    | cons y t =>
      by_cases h : x < maxQ (y :: t)
      · have := ih (by simp)
        simp at this
        simp [argmaxIdx, h]
        omega
      · simp [argmaxIdx, h]

lemma getD_argmaxIdx : ∀ (l : List ℚ), l ≠ [] → l.getD (argmaxIdx l) 0 = maxQ l := by
  intro l
  induction l with
  | nil => intro h; cases h rfl
  | cons x xs ih =>
    intro _
    cases xs with
    | nil => simp [argmaxIdx, maxQ]
    | cons y t =>
      by_cases h : x < maxQ (y :: t)
      · have := ih (by simp)
        simp only [argmaxIdx, maxQ, if_pos h, List.getD_cons_succ]
        rw [this]
        exact (max_eq_right (le_of_lt h)).symm
      · simp only [argmaxIdx, maxQ, if_neg h, List.getD_cons_zero]
        exact (max_eq_left (not_lt.mp h)).symm

lemma getD_map_snd : ∀ (l : List (ℤ × ℚ)) (i : ℕ), i < l.length →
    (l.map Prod.snd).getD i 0 = (l.getD i (0, 0)).2 := by
  intro l
  induction l with
  | nil => intro i h; simp at h
  | cons p t ih =>
    intro i h
    cases i with
    | zero => simp
    | succ j =>
      simp only [List.map_cons, List.getD_cons_succ]
      exact ih j (by simp at h; omega)

lemma getD_mem : ∀ (l : List (ℤ × ℚ)) (i : ℕ), i < l.length →
    l.getD i (0, 0) ∈ l := by
  intro l
  induction l with
  | nil => intro i h; simp at h
  | cons p t ih =>
    intro i h
    cases i with
    | zero => simp
    | succ j =>
      simp only [List.getD_cons_succ]
      exact List.mem_cons_of_mem p (ih j (by simp at h; omega))

/-- The per-interval aggregation of process_video (video_processor.py
lines 297-308): mean of the accepted per-frame means, the maximum via
np.argmax (first position), the timestamp of that frame, and the
sentinel (-1, -1, -1) when nothing was accepted. -/
def aggregateInterval (frame_means : List (ℤ × ℚ)) (src_fps : ℚ) : ℚ × ℚ × ℚ :=
  if frame_means.isEmpty then (-1, -1, -1)
  else
    let means_only := frame_means.map Prod.snd
    let mean_of_means := means_only.sum / (means_only.length : ℚ)
    let max_pos := argmaxIdx means_only
    let max_of_means := means_only.getD max_pos 0
    let max_at_frame := (frame_means.getD max_pos (0, 0)).1
    (mean_of_means, max_of_means, (max_at_frame : ℚ) / src_fps)

end SegApp

namespace SegApp

attribute [local semireducible] Rat.add Rat.mul Rat.inv Rat.sub

/-- C4.  Interval aggregation postcondition: with no accepted
measurement the result is the sentinel (-1, -1, -1) (a value, not an
error); otherwise mean_of_means is the arithmetic mean of the accepted
measurements, max_of_means is their maximum, and max_at_s is
frame_index / src_fps for a frame attaining that maximum. -/
theorem interval_aggregation (fm : List (ℤ × ℚ)) (fps : ℚ) :
    (fm = [] → aggregateInterval fm fps = (-1, -1, -1)) ∧
    (fm ≠ [] →
      (aggregateInterval fm fps).1 = (fm.map Prod.snd).sum / (fm.length : ℚ) ∧
      ((aggregateInterval fm fps).2.1 ∈ fm.map Prod.snd ∧
        ∀ m ∈ fm.map Prod.snd, m ≤ (aggregateInterval fm fps).2.1) ∧
      (∃ p ∈ fm, p.2 = (aggregateInterval fm fps).2.1 ∧
        (aggregateInterval fm fps).2.2 = (p.1 : ℚ) / fps)) := by
  constructor
  · intro h; simp [aggregateInterval, h]
  · intro h
    have hne : ¬ fm.isEmpty := by simpa [List.isEmpty_iff] using h
    have hmapne : fm.map Prod.snd ≠ [] := by simpa using h
    have hlt : argmaxIdx (fm.map Prod.snd) < fm.length := by
      have := argmaxIdx_lt (fm.map Prod.snd) hmapne
      simpa using this
    have hmax := getD_argmaxIdx (fm.map Prod.snd) hmapne
    refine ⟨?_, ⟨?_, ?_⟩, ?_⟩
    · simp [aggregateInterval, hne]
    · simp only [aggregateInterval, hne, Bool.false_eq_true, if_false]
      rw [hmax]
      exact maxQ_mem _ hmapne
    · intro m hm
      simp only [aggregateInterval, hne, Bool.false_eq_true, if_false]
      rw [hmax]
      exact le_maxQ _ m hm
    · refine ⟨fm.getD (argmaxIdx (fm.map Prod.snd)) (0, 0), getD_mem fm _ hlt, ?_, ?_⟩
      · simp only [aggregateInterval, hne, Bool.false_eq_true, if_false]
        exact (getD_map_snd fm _ hlt).symm
      · simp [aggregateInterval, hne]

/-- C4 witness: the spec's own example — measurements 1, 2, 3 mm at
frames 0, 5, 10 with src_fps = 10 aggregate to mean 2, max 3 at 1 s. -/
theorem interval_aggregation_witness :
    aggregateInterval [((0 : ℤ), (1 : ℚ)), (5, 2), (10, 3)] 10 = (2, 3, 1) ∧
    (aggregateInterval [((0 : ℤ), (1 : ℚ)), (5, 2), (10, 3)] 10).1 =
      ([((0 : ℤ), (1 : ℚ)), (5, 2), (10, 3)].map Prod.snd).sum /
        (([((0 : ℤ), (1 : ℚ)), (5, 2), (10, 3)] :
          List (ℤ × ℚ)).length : ℚ) ∧
    aggregateInterval ([] : List (ℤ × ℚ)) 10 = (-1, -1, -1) := by
  refine ⟨by decide, ?_, ?_⟩
  · exact ((interval_aggregation [((0 : ℤ), (1 : ℚ)), (5, 2), (10, 3)] 10).2
      (by decide)).1
  · exact (interval_aggregation ([] : List (ℤ × ℚ)) 10).1 rfl

end SegApp

namespace SegApp

attribute [local semireducible] Rat.add Rat.mul Rat.inv Rat.sub

/-- list(range(a, b + 1)): every integer from a to b inclusive. -/
def intRange (a b : ℤ) : List ℤ :=
  (List.range (b + 1 - a).toNat).map (fun (i : ℕ) => a + (i : ℤ))

/-- VideoIntervalProcessor._choose_sampled_indices (video_processor.py
lines 143-163): replace non-positive rates, take every frame when the
rate ratio is at most 1.05, otherwise round out n = max(1,
floor(count / ratio)) indices and filter them into bounds. -/
def chooseSampledIndices (start_f end_f : ℤ) (src_fps target_fps : ℚ) : List ℤ :=
  let tf := if target_fps ≤ 0 then src_fps else target_fps
  let sf := if src_fps ≤ 0 then tf else src_fps
  let ratio := sf / tf
  if ratio ≤ 21/20 then intRange start_f end_f
  else
    let n : ℤ := max 1 ⌊((end_f - start_f + 1 : ℤ) : ℚ) / ratio⌋
    let idxs := (List.range n.toNat).map
      (fun (i : ℕ) => pyRound ((start_f : ℚ) + (i : ℚ) * ratio))
    idxs.filter (fun i => decide (start_f ≤ i) && decide (i ≤ end_f))

lemma mem_intRange (a b i : ℤ) : i ∈ intRange a b ↔ a ≤ i ∧ i ≤ b := by
  unfold intRange
  rw [List.mem_map]
  constructor
  · rintro ⟨k, hk, rfl⟩
    rw [List.mem_range] at hk
    omega
  · rintro ⟨h1, h2⟩
    refine ⟨(i - a).toNat, ?_, ?_⟩
    · rw [List.mem_range]; omega
    · omega

lemma length_intRange (a b : ℤ) : (intRange a b).length = (b + 1 - a).toNat := by
  rw [intRange, List.length_map, List.length_range]

/-- C5.  The Frame Sampler contract, with ratio as the claim states it
(src_fps over the effective target rate): for ratio at most 1.05 every
index of [start_f, end_f] is returned, exactly end_f - start_f + 1 of
them; otherwise the result is the indices round(start_f + i*ratio) for
i < max(1, floor((end_f - start_f + 1)/ratio)), filtered into bounds. -/
theorem frame_sampler_spec (start_f end_f : ℤ) (src_fps target_fps : ℚ)
    (_hse : start_f ≤ end_f) (hpos : 0 < src_fps ∨ 0 < target_fps) :
    (src_fps / (if target_fps ≤ 0 then src_fps else target_fps) ≤ 21/20 →
      (∀ i : ℤ, i ∈ chooseSampledIndices start_f end_f src_fps target_fps ↔
        (start_f ≤ i ∧ i ≤ end_f)) ∧
      (chooseSampledIndices start_f end_f src_fps target_fps).length =
        (end_f - start_f + 1).toNat) ∧
    (21/20 < src_fps / (if target_fps ≤ 0 then src_fps else target_fps) →
      chooseSampledIndices start_f end_f src_fps target_fps =
        ((List.range (max 1
            ⌊((end_f - start_f + 1 : ℤ) : ℚ) /
              (src_fps / (if target_fps ≤ 0 then src_fps else target_fps))⌋).toNat).map
          (fun (i : ℕ) => pyRound ((start_f : ℚ) +
            (i : ℚ) * (src_fps / (if target_fps ≤ 0 then src_fps else target_fps))))).filter
          (fun i => decide (start_f ≤ i) && decide (i ≤ end_f))) := by
  by_cases hsrc : 0 < src_fps
  · have hsf : ¬ (src_fps ≤ 0) := not_le.mpr hsrc
    constructor
    · intro hr
      have : chooseSampledIndices start_f end_f src_fps target_fps =
          intRange start_f end_f := by
        simp only [chooseSampledIndices, hsf, if_false]
        rw [if_pos hr]
      rw [this]
      exact ⟨fun i => mem_intRange start_f end_f i,
        by rw [length_intRange]; congr 1; omega⟩
    · intro hr
      simp only [chooseSampledIndices, hsf, if_false]
      rw [if_neg (not_le.mpr hr)]
  · have hsf : src_fps ≤ 0 := not_lt.mp hsrc
    have htgt : 0 < target_fps := by
      rcases hpos with h | h
      · exact absurd h hsrc
      · exact h
    have htf : ¬ (target_fps ≤ 0) := not_le.mpr htgt
    have hratio : src_fps / (if target_fps ≤ 0 then src_fps else target_fps) ≤ 0 := by
      rw [if_neg htf]
      exact div_nonpos_iff.mpr (Or.inr ⟨hsf, le_of_lt htgt⟩)
    constructor
    · intro _
      have hone : target_fps / target_fps ≤ 21/20 := by
        rw [div_self (ne_of_gt htgt)]
        norm_num
      have : chooseSampledIndices start_f end_f src_fps target_fps =
          intRange start_f end_f := by
        simp only [chooseSampledIndices]
        rw [if_neg htf, if_pos hsf]
        rw [if_pos hone]
      rw [this]
      exact ⟨fun i => mem_intRange start_f end_f i,
        by rw [length_intRange]; congr 1; omega⟩
    · intro hr
      exact absurd (lt_of_lt_of_le hr hratio) (by norm_num)

/-- C5 witness: equal rates give all ten indices of [0, 9]; a third of
the source rate samples [0, 3, 6]. -/
theorem frame_sampler_spec_witness :
    (chooseSampledIndices 0 9 30 30).length = ((9 : ℤ) - 0 + 1).toNat ∧
    ((0 : ℤ) ∈ chooseSampledIndices 0 9 30 30 ↔ ((0 : ℤ) ≤ 0 ∧ (0 : ℤ) ≤ 9)) ∧
    chooseSampledIndices 0 9 30 10 = [0, 3, 6] := by
  refine ⟨?_, ?_, ?_⟩
  · exact ((frame_sampler_spec 0 9 30 30 (by decide) (Or.inl (by norm_num))).1
      (by norm_num)).2
  · exact ((frame_sampler_spec 0 9 30 30 (by decide) (Or.inl (by norm_num))).1
      (by norm_num)).1 0
  · decide

end SegApp

namespace SegApp

attribute [local semireducible] Rat.add Rat.mul Rat.inv Rat.sub

/-! ## Line extractor (src/app/utils/line_extractor.py)

The image-side pipeline (grayscale conversion, CLAHE contrast
enhancement, Sobel-Y gradient, absolute value) is an external OpenCV
computation; it is modelled by an abstract gradient-magnitude grid gy
over the (cropped) image.  Masks are boolean grids indexed (row,
column); the mask binarization (threshold at the value-range midpoint)
is absorbed into the boolean grid. -/

/-- np.arange(start, stop, step) over naturals, step assumed positive. -/
def arangeNat (start stop step : ℕ) : List ℕ :=
  (List.range ((stop - start + step - 1) / step)).map (fun (k : ℕ) => start + k * step)

/-- Whether a sampled column contains any mask pixel (cols.any(axis=0)). -/
def colHasMask (H : ℕ) (mask : ℕ → ℕ → Bool) (x : ℕ) : Bool :=
  (List.range H).any (fun y => mask y x)

/-- Topmost mask pixel of a column: np.argmax over the 0/1 column, i.e.
the first set row (only used on columns that have mask pixels). -/
def top0 (H : ℕ) (mask : ℕ → ℕ → Bool) (x : ℕ) : ℕ :=
  (List.range H).findIdx (fun y => mask y x)

/-- Bottommost mask pixel: H - 1 - argmax of the flipped column. -/
def bot0 (H : ℕ) (mask : ℕ → ℕ → Bool) (x : ℕ) : ℕ :=
  H - 1 - (List.range H).findIdx (fun y => mask (H - 1 - y) x)

/-- np.clip for a scalar. -/
def clipZ (v lo hi : ℤ) : ℤ := max lo (min v hi)

/-- best_y_around (line_extractor.py lines 94-103): scan max(1, win)
offsets from y0 downward (direction +1) or upward (direction -1),
clipped into the image, and return the y maximizing the gradient. -/
def bestYAround (H : ℕ) (gy : ℕ → ℕ → ℚ) (x : ℕ) (y0 : ℤ) (win : ℕ)
    (down : Bool) : ℤ :=
  let w := max 1 win
  let ys := (List.range w).map
    (fun (k : ℕ) => clipZ (y0 + (if down then (k : ℤ) else -(k : ℤ))) 0 ((H : ℤ) - 1))
  let vals := ys.map (fun y => gy y.toNat x)
  ys.getD (argmaxIdx vals) 0

/-- The sampled x-columns (lines 69-74): the central keep_ratio band
when keep_ratio is given and no region is, else the full width.
keep_ratio is a fraction in [0, 1], so int() is truncation toward 0. -/
def sampledXs (W si : ℕ) (keepRatio : Option ℚ) (hasRegion : Bool) : List ℕ :=
  match keepRatio, hasRegion with
  | some kr, false =>
    let border := (pyTrunc ((1 - kr) / 2 * (W : ℚ))).toNat
    arangeNat border (W - border) si
  | _, _ => arangeNat 0 W si

/-- The per-column extraction loop of extract_vertical_lines_from_mask
(lines 69-111) on an already-cropped image/mask. -/
def extractLinesCore (H W : ℕ) (mask : ℕ → ℕ → Bool) (gy : ℕ → ℕ → ℚ)
    (si wt wb : ℕ) (keepRatio : Option ℚ) (hasRegion : Bool) :
    List (ℤ × ℤ × ℤ) :=
  let xs := sampledXs W si keepRatio hasRegion
  if xs.isEmpty then []
  else
    let xs2 := xs.filter (fun x => colHasMask H mask x)
    if xs2.isEmpty then []
    else
      xs2.map (fun (x : ℕ) =>
        ((x : ℤ),
         bestYAround H gy x ((top0 H mask x : ℕ) : ℤ) wt true,
         bestYAround H gy x ((bot0 H mask x : ℕ) : ℤ) wb false))

/-- Region cropping (lines 49-54): numpy slicing clamps the slice to
the image bounds. -/
def cropH (region : Option (ℕ × ℕ × ℕ × ℕ)) (H : ℕ) : ℕ :=
  match region with
  | none => H
  | some (_, y0, _, hr) => min hr (H - y0)

def cropW (region : Option (ℕ × ℕ × ℕ × ℕ)) (W : ℕ) : ℕ :=
  match region with
  | none => W
  | some (x0, _, wr, _) => min wr (W - x0)

def cropMask (region : Option (ℕ × ℕ × ℕ × ℕ)) (mask : ℕ → ℕ → Bool) :
    ℕ → ℕ → Bool :=
  match region with
  | none => mask
  | some (x0, y0, _, _) => fun y x => mask (y0 + y) (x0 + x)

/-- The (x, y) offset added back to lines when a region was used
(lines 113-116). -/
def lineOffset (region : Option (ℕ × ℕ × ℕ × ℕ)) : ℤ × ℤ :=
  match region with
  | none => (0, 0)
  | some (x0, y0, _, _) => ((x0 : ℤ), (y0 : ℤ))

/-- Pixel height of a line as the source computes it for smoothing
(line 145: heights = arr[:,2] - arr[:,1], as float). -/
def lineHeight (l : ℤ × ℤ × ℤ) : ℚ := ((l.2.2 - l.2.1 : ℤ) : ℚ)

/-- Length-(N - w + 1) moving average of the heights; the source
computes it by prefix sums (lines 154-156), which is the same exact
value over rationals. -/
def movingAvg (hs : List ℚ) (w : ℕ) : List ℚ :=
  (List.range (hs.length - w + 1)).map
    (fun (j : ℕ) => ((hs.drop j).take w).sum / (w : ℚ))

/-- The padded smoothed sequence (lines 158-167): the first w/2
positions replicate the first full-window average, the middle carries
the moving average, the tail replicates the last one. -/
def smoothedList (hs : List ℚ) (w : ℕ) : List ℚ :=
  let ma := movingAvg hs w
  let padLeft := w / 2
  let padRight := w - padLeft - 1
  (List.range hs.length).map (fun (i : ℕ) =>
    if i < padLeft then ma.getD 0 0
    else if i < hs.length - padRight then ma.getD (i - padLeft) 0
    else ma.getD (ma.length - 1) 0)

/-- Relative deviation with the 1e-6 denominator guard (lines 170-171). -/
def relDiff (h s : ℚ) : ℚ := |h - s| / max s (1/1000000)

/-- LineExtractor._filter_with_smoothing (lines 130-175). -/
def filterWithSmoothing (lines : List (ℤ × ℤ × ℤ)) (window_size : ℕ)
    (threshold : ℚ) : List (ℤ × ℤ × ℤ) :=
  if lines.isEmpty then lines
  else if window_size ≤ 1 then lines
  else if lines.length ≤ window_size then lines
  else
    let hs := lines.map lineHeight
    let sm := smoothedList hs window_size
    (List.range lines.length).filterMap (fun (i : ℕ) =>
      if relDiff (hs.getD i 0) (sm.getD i 0) ≤ threshold then lines.get? i
      else none)

/-- LineExtractor.extract_vertical_lines_from_mask (lines 14-128):
crop, scan columns, refine endpoints by gradient, re-offset, then
optionally smooth. -/
def extractVerticalLinesFromMask (H W : ℕ) (mask : ℕ → ℕ → Bool)
    (gy : ℕ → ℕ → ℚ) (si wt wb : ℕ) (keepRatio : Option ℚ)
    (region : Option (ℕ × ℕ × ℕ × ℕ)) (applySmoothing : Bool)
    (windowSize : ℕ) (threshold : ℚ) : List (ℤ × ℤ × ℤ) :=
  let lines := extractLinesCore (cropH region H) (cropW region W)
    (cropMask region mask) gy si wt wb keepRatio region.isSome
  let lines2 := lines.map (fun l =>
    (l.1 + (lineOffset region).1, l.2.1 + (lineOffset region).2,
     l.2.2 + (lineOffset region).2))
  if applySmoothing && !lines2.isEmpty then
    filterWithSmoothing lines2 windowSize threshold
  else lines2

end SegApp

namespace SegApp

attribute [local semireducible] Rat.add Rat.mul Rat.inv Rat.sub

lemma getD_mem_of_lt {α : Type} : ∀ (l : List α) (d : α) (i : ℕ), i < l.length →
    l.getD i d ∈ l := by
  intro l
  induction l with
  | nil => intro d i h; simp at h
  | cons p t ih =>
    intro d i h
    cases i with
    | zero => simp
    | succ j =>
      simp only [List.getD_cons_succ]
      exact List.mem_cons_of_mem p (ih d j (by simp at h; omega))

lemma getD_map_range {α : Type} (n : ℕ) (f : ℕ → α) (d : α) (i : ℕ) (h : i < n) :
    ((List.range n).map f).getD i d = f i := by
  rw [List.getD_eq_getElem _ _ (by simpa using h)]
  simp

/-- The smoothing filter only ever removes lines. -/
lemma filterWithSmoothing_subset (lines : List (ℤ × ℤ × ℤ)) (w : ℕ) (t : ℚ) :
    ∀ l ∈ filterWithSmoothing lines w t, l ∈ lines := by
  intro l hl
  unfold filterWithSmoothing at hl
  split_ifs at hl
  · exact hl
  · exact hl
  · exact hl
  · rw [List.mem_filterMap] at hl
    obtain ⟨i, _, hfi⟩ := hl
    split_ifs at hfi
    exact List.get?_mem hfi

lemma bestYAround_mem (H : ℕ) (gy : ℕ → ℕ → ℚ) (x : ℕ) (y0 : ℤ) (win : ℕ)
    (down : Bool) :
    bestYAround H gy x y0 win down ∈ (List.range (max 1 win)).map
      (fun (k : ℕ) => clipZ (y0 + (if down then (k : ℤ) else -(k : ℤ))) 0 ((H : ℤ) - 1)) := by
  unfold bestYAround
  apply getD_mem_of_lt
  have hlen : ((List.range (max 1 win)).map
      (fun (k : ℕ) => clipZ (y0 + (if down then (k : ℤ) else -(k : ℤ)))
        0 ((H : ℤ) - 1))).length = max 1 win := by simp
  have hne : (((List.range (max 1 win)).map
      (fun (k : ℕ) => clipZ (y0 + (if down then (k : ℤ) else -(k : ℤ)))
        0 ((H : ℤ) - 1))).map (fun y => gy y.toNat x)) ≠ [] := by
    simp
  have := argmaxIdx_lt _ hne
  simpa using this

lemma bestYAround_down_le (H : ℕ) (gy : ℕ → ℕ → ℚ) (x : ℕ) (y0 : ℤ) (win : ℕ)
    (hy0 : 0 ≤ y0) :
    bestYAround H gy x y0 win true ≤ y0 + ((max 1 win : ℕ) : ℤ) - 1 := by
  have hm := bestYAround_mem H gy x y0 win true
  rw [List.mem_map] at hm
  obtain ⟨k, hk, he⟩ := hm
  rw [List.mem_range] at hk
  rw [← he]
  simp only [if_pos rfl, clipZ]
  have h1 : min (y0 + (k : ℤ)) ((H : ℤ) - 1) ≤ y0 + (k : ℤ) := min_le_left _ _
  have h2 : (0 : ℤ) ≤ y0 + (k : ℤ) := by positivity
  have : max 0 (min (y0 + (k : ℤ)) ((H : ℤ) - 1)) ≤ y0 + (k : ℤ) :=
    max_le h2 h1
  omega

lemma bestYAround_up_ge (H : ℕ) (gy : ℕ → ℕ → ℚ) (x : ℕ) (y0 : ℤ) (win : ℕ)
    (hy0 : y0 ≤ (H : ℤ) - 1) :
    y0 - ((max 1 win : ℕ) : ℤ) + 1 ≤ bestYAround H gy x y0 win false := by
  have hm := bestYAround_mem H gy x y0 win false
  rw [List.mem_map] at hm
  obtain ⟨k, hk, he⟩ := hm
  rw [List.mem_range] at hk
  rw [← he]
  simp only [Bool.false_eq_true, if_false, clipZ, ← sub_eq_add_neg]
  have h1 : min (y0 - (k : ℤ)) ((H : ℤ) - 1) = y0 - (k : ℤ) :=
    min_eq_left (by omega)
  rw [h1]
  have : y0 - (k : ℤ) ≤ max 0 (y0 - (k : ℤ)) := le_max_right _ _
  omega

lemma colHasMask_pos (H : ℕ) (mask : ℕ → ℕ → Bool) (x : ℕ)
    (h : colHasMask H mask x = true) : 0 < H := by
  unfold colHasMask at h
  rw [List.any_eq_true] at h
  obtain ⟨y, hy, _⟩ := h
  rw [List.mem_range] at hy
  omega

lemma bot0_le (H : ℕ) (mask : ℕ → ℕ → Bool) (x : ℕ) : bot0 H mask x ≤ H - 1 := by
  unfold bot0
  omega

/-- The gradient-refined endpoints of any masked column stay ordered
when the rough thickness dominates the two search windows. -/
lemma extractLinesCore_invariant (H W : ℕ) (mask : ℕ → ℕ → Bool)
    (gy : ℕ → ℕ → ℚ) (si wt wb : ℕ) (keepRatio : Option ℚ) (hasRegion : Bool)
    (hthick : ∀ x, colHasMask H mask x = true →
      top0 H mask x + (max 1 wt - 1) + (max 1 wb - 1) ≤ bot0 H mask x) :
    ∀ l ∈ extractLinesCore H W mask gy si wt wb keepRatio hasRegion,
      l.2.1 ≤ l.2.2 := by
  intro l hl
  simp only [extractLinesCore] at hl
  split_ifs at hl
  · simp at hl
  · simp at hl
  · rw [List.mem_map] at hl
    obtain ⟨x, hx, he⟩ := hl
    rw [List.mem_filter] at hx
    have hcol : colHasMask H mask x = true := hx.2
    have hH : 0 < H := colHasMask_pos H mask x hcol
    have hth := hthick x hcol
    have hb := bot0_le H mask x
    have h1 : bestYAround H gy x ((top0 H mask x : ℕ) : ℤ) wt true ≤
        ((top0 H mask x : ℕ) : ℤ) + ((max 1 wt : ℕ) : ℤ) - 1 :=
      bestYAround_down_le H gy x _ wt (by positivity)
    have h2 : ((bot0 H mask x : ℕ) : ℤ) - ((max 1 wb : ℕ) : ℤ) + 1 ≤
        bestYAround H gy x ((bot0 H mask x : ℕ) : ℤ) wb false :=
      bestYAround_up_ge H gy x _ wb (by
        have : ((bot0 H mask x : ℕ) : ℤ) ≤ ((H - 1 : ℕ) : ℤ) := by
          exact_mod_cast hb
        omega)
    rw [← he]
    simp only []
    have hwt : 1 ≤ max 1 wt := le_max_left _ _
    have hwb : 1 ≤ max 1 wb := le_max_left _ _
    -- cast the thickness bound into ℤ
    have hthZ : ((top0 H mask x : ℕ) : ℤ) + (((max 1 wt : ℕ) : ℤ) - 1) +
        (((max 1 wb : ℕ) : ℤ) - 1) ≤ ((bot0 H mask x : ℕ) : ℤ) := by
      have := hth
      omega
    omega

/-- C6.  Amended LineSegment invariant: every line returned by the
extractor satisfies bottom_y >= top_y provided every sampled masked
column (of the cropped grid) has rough thickness at least
(gradient_search_top - 1) + (gradient_search_bottom - 1); without that
proviso the two gradient searches (top moves down, bottom moves up) can
cross on thin columns. -/
theorem line_segment_invariant (H W : ℕ) (mask : ℕ → ℕ → Bool)
    (gy : ℕ → ℕ → ℚ) (si wt wb : ℕ) (keepRatio : Option ℚ)
    (region : Option (ℕ × ℕ × ℕ × ℕ)) (applySmoothing : Bool)
    (windowSize : ℕ) (threshold : ℚ)
    (hthick : ∀ x, colHasMask (cropH region H) (cropMask region mask) x = true →
      top0 (cropH region H) (cropMask region mask) x +
        (max 1 wt - 1) + (max 1 wb - 1) ≤
      bot0 (cropH region H) (cropMask region mask) x) :
    ∀ l ∈ extractVerticalLinesFromMask H W mask gy si wt wb keepRatio region
        applySmoothing windowSize threshold, l.2.1 ≤ l.2.2 := by
  intro l hl
  simp only [extractVerticalLinesFromMask] at hl
  have hcore := extractLinesCore_invariant (cropH region H) (cropW region W)
    (cropMask region mask) gy si wt wb keepRatio region.isSome hthick
  have hl2 : l ∈ (extractLinesCore (cropH region H) (cropW region W)
      (cropMask region mask) gy si wt wb keepRatio region.isSome).map (fun l =>
        (l.1 + (lineOffset region).1, l.2.1 + (lineOffset region).2,
         l.2.2 + (lineOffset region).2)) := by
    split_ifs at hl
    · exact filterWithSmoothing_subset _ _ _ l hl
    · exact hl
  rw [List.mem_map] at hl2
  obtain ⟨l0, hl0, he⟩ := hl2
  have := hcore l0 hl0
  rw [← he]
  simp only []
  omega

/-- C6 counterexample: a 10-by-1 image whose mask is the single pixel
at row 5, with gradient peaks at rows 8 (below) and 2 (above) and
searches of 5 pixels, yields the single line (0, 8, 2) whose bottom_y
is strictly above its top_y. -/
theorem line_segment_invariant_counterexample :
    extractVerticalLinesFromMask 10 1 (fun y _ => decide (y = 5))
      (fun y _ => if y = 8 then 10 else if y = 2 then 9 else 0)
      5 5 5 none none true 5 (1/10) = [(0, 8, 2)] ∧
    ¬ ((8 : ℤ) ≤ 2) := by
  exact ⟨by decide, by decide⟩

end SegApp

namespace SegApp

attribute [local semireducible] Rat.add Rat.mul Rat.inv Rat.sub

/-- C6 witness: on a 10-by-1 image whose mask spans rows 2..8 (thick
enough for both 2-pixel searches), the extracted line (0, 2, 8) indeed
satisfies top_y <= bottom_y by the amended invariant. -/
theorem line_segment_invariant_witness :
    ((0 : ℤ), (2 : ℤ), (8 : ℤ)) ∈ extractVerticalLinesFromMask 10 1
      (fun y _ => decide (2 ≤ y ∧ y ≤ 8)) (fun _ _ => 0) 1 2 2 none none
      true 5 (1/10) ∧
    ((0 : ℤ), (2 : ℤ), (8 : ℤ)).2.1 ≤ ((0 : ℤ), (2 : ℤ), (8 : ℤ)).2.2 := by
  constructor
  · decide
  · exact line_segment_invariant 10 1 (fun y _ => decide (2 ≤ y ∧ y ≤ 8))
      (fun _ _ => 0) 1 2 2 none none true 5 (1/10)
      (fun x _ => by
        show (2 : ℕ) + (max 1 2 - 1) + (max 1 2 - 1) ≤ 8
        decide) (0, 2, 8) (by decide)

/-! ## Smoothing filter claims -/

/-- Three lines whose middle one is a 90-pixel spike. -/
def spikeLines : List (ℤ × ℤ × ℤ) := [(0, 0, 10), (1, 0, 100), (2, 0, 10)]

/-- Seven lines with a spike at position 5 - long enough for the
window-5 moving-average filter to act. -/
def sevenLines : List (ℤ × ℤ × ℤ) :=
  [(0, 0, 10), (1, 0, 10), (2, 0, 10), (3, 0, 10), (4, 0, 10),
   (5, 0, 100), (6, 0, 10)]

/-- The claim's smoothing rule, written from the spec's words for
comparison: a centered moving average over window_size whose window is
truncated (not wrapped) at the sequence ends. -/
def specCenteredAvg (hs : List ℚ) (w i : ℕ) : ℚ :=
  let lo := i - w / 2
  let hi := min (hs.length - 1) (i + w / 2)
  ((hs.drop lo).take (hi + 1 - lo)).sum / ((hi + 1 - lo : ℕ) : ℚ)

/-- C7 counterexample: for the three spike lines (fewer lines than the
window), the filter returns them all unchanged although the spike's
relative deviation from its truncated centered moving average is 1.5,
far above the 0.1 threshold: the claimed "discard exactly those lines
whose relative deviation exceeds threshold" fails whenever the list is
not longer than window_size. -/
theorem smoothing_counterexample :
    filterWithSmoothing spikeLines 5 (1/10) = spikeLines ∧
    (1/10 : ℚ) < relDiff (lineHeight (spikeLines.getD 1 (0, 0, 0)))
      (specCenteredAvg (spikeLines.map lineHeight) 5 1) := by
  exact ⟨by decide, by decide⟩

lemma movingAvg_length (hs : List ℚ) (w : ℕ) :
    (movingAvg hs w).length = hs.length - w + 1 := by
  simp [movingAvg]

lemma smoothedList_getD (hs : List ℚ) (w i : ℕ) (hw : 1 ≤ w)
    (hwN : w ≤ hs.length) (hi : i < hs.length) :
    (smoothedList hs w).getD i 0 =
      (movingAvg hs w).getD (min (hs.length - w) (i - w / 2)) 0 := by
  simp only [smoothedList]
  rw [getD_map_range _ _ _ _ hi]
  have hml := movingAvg_length hs w
  split_ifs with h1 h2
  · -- i < padLeft: the claimed index clamps to 0
    have : i - w / 2 = 0 := by omega
    rw [this]
    simp
  · -- middle band
    have : min (hs.length - w) (i - w / 2) = i - w / 2 := by omega
    rw [this]
  · -- tail band
    have : min (hs.length - w) (i - w / 2) = hs.length - w := by omega
    rw [this, hml, Nat.add_sub_cancel]

/-- C7 amended.  The smoothing filter acts only when the list is longer
than the window (and the window exceeds 1); then it keeps exactly the
lines whose relative deviation from the edge-clamped centered moving
average is at most threshold.  For window_size <= 1 or at most
window_size lines it returns the list unchanged, discarding nothing. -/
theorem smoothing_rule (lines : List (ℤ × ℤ × ℤ)) (w : ℕ) (t : ℚ) :
    (w ≤ 1 → filterWithSmoothing lines w t = lines) ∧
    (lines.length ≤ w → filterWithSmoothing lines w t = lines) ∧
    (1 < w → w < lines.length →
      filterWithSmoothing lines w t =
        (List.range lines.length).filterMap (fun (i : ℕ) =>
          if relDiff ((lines.map lineHeight).getD i 0)
              ((movingAvg (lines.map lineHeight) w).getD
                (min (lines.length - w) (i - w / 2)) 0) ≤ t
          then lines.get? i else none)) := by
  refine ⟨fun hw => ?_, fun hn => ?_, fun hw hn => ?_⟩
  · unfold filterWithSmoothing
    split_ifs <;> rfl
  · unfold filterWithSmoothing
    split_ifs <;> rfl
  · have hne : ¬ lines.isEmpty := by
      rw [List.isEmpty_iff]
      intro e
      rw [e] at hn
      simp at hn
    have hw1 : ¬ (w ≤ 1) := by omega
    have hn1 : ¬ (lines.length ≤ w) := by omega
    simp only [filterWithSmoothing, hne, Bool.false_eq_true, if_false,
      hw1, hn1]
    apply List.filterMap_congr
    intro i hi
    rw [List.mem_range] at hi
    rw [smoothedList_getD (lines.map lineHeight) w i (by omega)
      (by simp; omega) (by simp; omega), List.length_map]

/-- C7 witness: the smoothing rule applied to the seven spike lines
(window branch) and to the three spike lines (short-list branch). -/
theorem smoothing_rule_witness :
    filterWithSmoothing spikeLines 5 (1/10) = spikeLines ∧
    filterWithSmoothing sevenLines 5 (1/10) =
      (List.range sevenLines.length).filterMap (fun (i : ℕ) =>
        if relDiff ((sevenLines.map lineHeight).getD i 0)
            ((movingAvg (sevenLines.map lineHeight) 5).getD
              (min (sevenLines.length - 5) (i - 5 / 2)) 0) ≤ (1/10 : ℚ)
        then sevenLines.get? i else none) := by
  constructor
  · exact (smoothing_rule spikeLines 5 (1/10)).2.1 (by decide)
  · exact (smoothing_rule sevenLines 5 (1/10)).2.2 (by decide) (by decide)

end SegApp

namespace SegApp

attribute [local semireducible] Rat.add Rat.mul Rat.inv Rat.sub

/-! ## Letterbox preprocessor (src/app/utils/image/image.py and
src/app/utils/image/image_gpu.py) -/

/-- The geometry produced by a letterbox resize: scale, resized
dimensions, and the four paddings. -/
structure LetterboxGeom where
  scale : ℚ
  nw : ℤ
  nh : ℤ
  pad_left : ℤ
  pad_top : ℤ
  pad_right : ℤ
  pad_bottom : ℤ
deriving Repr, DecidableEq

/-- The padding computation both paths share (image.py lines 41-44,
image_gpu.py lines 53-56): floor-halve the remaining space for the
top/left pad, give the rest to bottom/right.  Python // is floor
division. -/
def mkLetterboxGeom (tw th : ℕ) (scale : ℚ) (nw nh : ℤ) : LetterboxGeom :=
  let pad_top := Int.fdiv ((th : ℤ) - nh) 2
  let pad_bottom := (th : ℤ) - nh - pad_top
  let pad_left := Int.fdiv ((tw : ℤ) - nw) 2
  let pad_right := (tw : ℤ) - nw - pad_left
  ⟨scale, nw, nh, pad_left, pad_top, pad_right, pad_bottom⟩

/-- uniform_resize_and_pad (image.py lines 34-52): the CPU path.  The
resized dims use int(), truncation. -/
def cpuLetterboxGeom (w h tw th : ℕ) : LetterboxGeom :=
  let scale : ℚ := min ((tw : ℚ) / (w : ℚ)) ((th : ℚ) / (h : ℚ))
  mkLetterboxGeom tw th scale (pyTrunc ((w : ℚ) * scale)) (pyTrunc ((h : ℚ) * scale))

/-- uniform_resize_and_pad_cuda (image_gpu.py lines 49-57): the GPU
path.  The resized dims use int(round(.)). -/
def gpuLetterboxGeom (w h tw th : ℕ) : LetterboxGeom :=
  let scale : ℚ := min ((tw : ℚ) / (w : ℚ)) ((th : ℚ) / (h : ℚ))
  mkLetterboxGeom tw th scale (pyRound ((w : ℚ) * scale)) (pyRound ((h : ℚ) * scale))

/-- The padded canvas as a pixel function: the resized image sits at
(pad_left, pad_top), everything outside is the constant black border
(cv2.copyMakeBorder with value [0,0,0]; F.pad with value 0). -/
def paddedPixel (g : LetterboxGeom) (resized : ℕ → ℕ → ℚ) (y x : ℤ) : ℚ :=
  if g.pad_top ≤ y ∧ y < g.pad_top + g.nh ∧ g.pad_left ≤ x ∧ x < g.pad_left + g.nw
  then resized (y - g.pad_top).toNat (x - g.pad_left).toNat
  else 0

/-- C8 counterexample: a 10-by-7 image letterboxed onto a 5-by-5 canvas
has scale 1/2; the CPU path truncates 7 * 0.5 = 3.5 to height 3 while
round(3.5) is 4 (and the GPU path indeed produces 4), so the claimed
"resized dimensions are round(src*scale) on both paths" fails on the
CPU fallback. -/
theorem letterbox_round_counterexample :
    (cpuLetterboxGeom 10 7 5 5).scale = 1/2 ∧
    (cpuLetterboxGeom 10 7 5 5).nh = 3 ∧
    pyRound ((7 : ℚ) * (cpuLetterboxGeom 10 7 5 5).scale) = 4 ∧
    (gpuLetterboxGeom 10 7 5 5).nh = 4 ∧
    ((3 : ℤ) ≠ 4) := by
  exact ⟨by decide, by decide, by decide, by decide, by decide⟩

lemma pyTrunc_eq_floor (q : ℚ) (h : 0 ≤ q) : pyTrunc q = ⌊q⌋ := by
  simp [pyTrunc, h]

lemma mkLetterboxGeom_pads (tw th : ℕ) (scale : ℚ) (nw nh : ℤ) :
    (mkLetterboxGeom tw th scale nw nh).pad_left +
      (mkLetterboxGeom tw th scale nw nh).pad_right = (tw : ℤ) - nw ∧
    ((mkLetterboxGeom tw th scale nw nh).pad_right -
        (mkLetterboxGeom tw th scale nw nh).pad_left = 0 ∨
      (mkLetterboxGeom tw th scale nw nh).pad_right -
        (mkLetterboxGeom tw th scale nw nh).pad_left = 1) ∧
    (mkLetterboxGeom tw th scale nw nh).pad_top +
      (mkLetterboxGeom tw th scale nw nh).pad_bottom = (th : ℤ) - nh ∧
    ((mkLetterboxGeom tw th scale nw nh).pad_bottom -
        (mkLetterboxGeom tw th scale nw nh).pad_top = 0 ∨
      (mkLetterboxGeom tw th scale nw nh).pad_bottom -
        (mkLetterboxGeom tw th scale nw nh).pad_top = 1) := by
  have hW : Int.fdiv ((tw : ℤ) - nw) 2 = ((tw : ℤ) - nw) / 2 :=
    Int.fdiv_eq_ediv _ (by omega)
  have hH : Int.fdiv ((th : ℤ) - nh) 2 = ((th : ℤ) - nh) / 2 :=
    Int.fdiv_eq_ediv _ (by omega)
  simp only [mkLetterboxGeom, hW, hH]
  omega

/-- C8 amended.  Letterbox postcondition: both paths use
scale = min(target_w/src_w, target_h/src_h), which satisfies
scale*src_w <= target_w and scale*src_h <= target_h; the CPU path
truncates (floors) src*scale for the resized dims while the GPU path
rounds them; on both paths the paddings on each axis sum to the
remaining space with the extra pixel, if any, on the bottom/right; and
every canvas pixel outside the resized image is black. -/
theorem letterbox_spec (w h tw th : ℕ) (hw : 0 < w) (hh : 0 < h) :
    (cpuLetterboxGeom w h tw th).scale = min ((tw : ℚ) / w) ((th : ℚ) / h) ∧
    (gpuLetterboxGeom w h tw th).scale = (cpuLetterboxGeom w h tw th).scale ∧
    (cpuLetterboxGeom w h tw th).scale * w ≤ tw ∧
    (cpuLetterboxGeom w h tw th).scale * h ≤ th ∧
    (cpuLetterboxGeom w h tw th).nw = ⌊(w : ℚ) * (cpuLetterboxGeom w h tw th).scale⌋ ∧
    (cpuLetterboxGeom w h tw th).nh = ⌊(h : ℚ) * (cpuLetterboxGeom w h tw th).scale⌋ ∧
    (gpuLetterboxGeom w h tw th).nw = pyRound ((w : ℚ) * (cpuLetterboxGeom w h tw th).scale) ∧
    (gpuLetterboxGeom w h tw th).nh = pyRound ((h : ℚ) * (cpuLetterboxGeom w h tw th).scale) ∧
    (∀ g ∈ [cpuLetterboxGeom w h tw th, gpuLetterboxGeom w h tw th],
      g.pad_left + g.pad_right = (tw : ℤ) - g.nw ∧
      (g.pad_right - g.pad_left = 0 ∨ g.pad_right - g.pad_left = 1) ∧
      g.pad_top + g.pad_bottom = (th : ℤ) - g.nh ∧
      (g.pad_bottom - g.pad_top = 0 ∨ g.pad_bottom - g.pad_top = 1)) ∧
    (∀ (resized : ℕ → ℕ → ℚ) (y x : ℤ),
      ¬ ((cpuLetterboxGeom w h tw th).pad_top ≤ y ∧
         y < (cpuLetterboxGeom w h tw th).pad_top + (cpuLetterboxGeom w h tw th).nh ∧
         (cpuLetterboxGeom w h tw th).pad_left ≤ x ∧
         x < (cpuLetterboxGeom w h tw th).pad_left + (cpuLetterboxGeom w h tw th).nw) →
      paddedPixel (cpuLetterboxGeom w h tw th) resized y x = 0) := by
  have hscale_w : min ((tw : ℚ) / w) ((th : ℚ) / h) * w ≤ tw := by
    have h1 : min ((tw : ℚ) / w) ((th : ℚ) / h) ≤ (tw : ℚ) / w := min_le_left _ _
    have h2 : (0 : ℚ) < (w : ℚ) := by exact_mod_cast hw
    calc min ((tw : ℚ) / w) ((th : ℚ) / h) * w ≤ ((tw : ℚ) / w) * w :=
          mul_le_mul_of_nonneg_right h1 (le_of_lt h2)
      _ = tw := div_mul_cancel₀ _ (ne_of_gt h2)
  have hscale_h : min ((tw : ℚ) / w) ((th : ℚ) / h) * h ≤ th := by
    have h1 : min ((tw : ℚ) / w) ((th : ℚ) / h) ≤ (th : ℚ) / h := min_le_right _ _
    have h2 : (0 : ℚ) < (h : ℚ) := by exact_mod_cast hh
    calc min ((tw : ℚ) / w) ((th : ℚ) / h) * h ≤ ((th : ℚ) / h) * h :=
          mul_le_mul_of_nonneg_right h1 (le_of_lt h2)
      _ = th := div_mul_cancel₀ _ (ne_of_gt h2)
  refine ⟨rfl, rfl, hscale_w, hscale_h, ?_, ?_, rfl, rfl, ?_, ?_⟩
  · show pyTrunc ((w : ℚ) * min ((tw : ℚ) / w) ((th : ℚ) / h)) = _
    rw [pyTrunc_eq_floor _ (by positivity)]
    rfl
  · show pyTrunc ((h : ℚ) * min ((tw : ℚ) / w) ((th : ℚ) / h)) = _
    rw [pyTrunc_eq_floor _ (by positivity)]
    rfl
  · intro g hg
    rcases List.mem_pair.mp hg with rfl | rfl
    · exact mkLetterboxGeom_pads tw th _ _ _
    · exact mkLetterboxGeom_pads tw th _ _ _
  · intro resized y x hout
    simp [paddedPixel, hout]

/-- C8 witness: the letterbox postcondition at a 640-by-480 image onto
the 1024-by-1024 canvas. -/
theorem letterbox_spec_witness :
    (cpuLetterboxGeom 640 480 1024 1024).scale * 640 ≤ 1024 ∧
    (cpuLetterboxGeom 640 480 1024 1024).scale * 480 ≤ 1024 ∧
    (cpuLetterboxGeom 640 480 1024 1024).nw =
      ⌊(640 : ℚ) * (cpuLetterboxGeom 640 480 1024 1024).scale⌋ := by
  refine ⟨?_, ?_, ?_⟩
  · exact (letterbox_spec 640 480 1024 1024 (by decide) (by decide)).2.2.1
  · exact (letterbox_spec 640 480 1024 1024 (by decide) (by decide)).2.2.2.1
  · exact (letterbox_spec 640 480 1024 1024 (by decide) (by decide)).2.2.2.2.1

end SegApp

namespace SegApp

attribute [local semireducible] Rat.add Rat.mul Rat.inv Rat.sub

/-! ## Region-of-interest mapping (src/app/utils/canvas.py) -/

/-- convert_original_xywh_to_resized (canvas.py lines 8-33): scale the
rectangle and shift by the letterbox padding.  Note there is no
clipping of any kind in the function. -/
def convert_original_xywh_to_resized (original_xywh : ℤ × ℤ × ℤ × ℤ)
    (scale : ℚ) (padding : ℤ × ℤ) : ℤ × ℤ × ℤ × ℤ :=
  let x := original_xywh.1
  let y := original_xywh.2.1
  let w := original_xywh.2.2.1
  let h := original_xywh.2.2.2
  let pad_left := padding.1
  let pad_top := padding.2
  (pyTrunc ((x : ℚ) * scale) + pad_left,
   pyTrunc ((y : ℚ) * scale) + pad_top,
   pyTrunc ((w : ℚ) * scale),
   pyTrunc ((h : ℚ) * scale))

/-- C9.  Evidence for the claim's failure even under correct wiring:
with the genuine letterbox geometry of a 2000-by-1000 frame onto the
1024-by-1024 canvas (scale 64/125, padding (0, 256)), the converted
rectangle for region (1900, 900, 500, 500) ends at x = 972 + 256 =
1228, beyond the 1024-pixel canvas: the function performs no clipping
to canvas bounds.  (The call site itself, video_processor.py line 199,
passes (src_w, src_h) as scale and TARGET_SIZE as padding, so in
Python it raises TypeError on any region before this arithmetic can
even run.) -/
theorem convert_xywh_not_clipped :
    (cpuLetterboxGeom 2000 1000 1024 1024).scale = 64/125 ∧
    (cpuLetterboxGeom 2000 1000 1024 1024).pad_left = 0 ∧
    (cpuLetterboxGeom 2000 1000 1024 1024).pad_top = 256 ∧
    convert_original_xywh_to_resized (1900, 900, 500, 500) (64/125) (0, 256) =
      (972, 716, 256, 256) ∧
    (1024 : ℤ) < 972 + 256 := by
  exact ⟨by decide, by decide, by decide, by decide, by decide⟩

/-! ## Streaming encoder release (src/app/utils/ffmpeg_pipe.py and the
interval loop of src/app/processing/video_processor.py lines 266-295) -/

/-- Observable events on the encoder pipe: one write per processed
frame, one close of the subprocess (stdin close + wait). -/
inductive EncEvent where
  | write
  | close
deriving Repr, DecidableEq

/-- What processing one sampled frame can do: succeed with an optional
accepted measurement, or raise a Python exception (decode/infer/
extract/encode failure such as a dimension mismatch in
write_frame_rgb_array). -/
inductive FrameOutcome where
  | ok (m : Option ℚ)
  | raise
deriving Repr, DecidableEq

/-- The per-interval loop of process_video as the source orders it:
check the stability stop flag at the top of the loop, process the
frame (feeding an accepted measurement to the filter and writing the
frame to the pipe), and only after the loop falls through is
pipe.close() executed — there is no try/finally, so a raised exception
propagates with no close event. -/
def runIntervalGo (cfg : StabilityConfig) (stab : FilterState) :
    List FrameOutcome → List EncEvent × Bool
  | [] => ([EncEvent.close], false)
  | o :: rest =>
    if stab.stopped then ([EncEvent.close], false)
    else
      match o with
      | FrameOutcome.raise => ([], true)
      | FrameOutcome.ok none =>
        let r := runIntervalGo cfg stab rest
        (EncEvent.write :: r.1, r.2)
      | FrameOutcome.ok (some m) =>
        let r := runIntervalGo cfg (add cfg stab m).2 rest
        (EncEvent.write :: r.1, r.2)

/-- One interval's run from a fresh stability filter. -/
def runInterval (cfg : StabilityConfig) (outcomes : List FrameOutcome) :
    List EncEvent × Bool :=
  runIntervalGo cfg initState outcomes

/-- C10.  Close accounting for the interval loop: on the two normal
exit paths (all frames processed, or early termination via the
stability filter's stopped flag) the encoder is closed exactly once,
but when an exception escapes the loop the close count is zero — the
subprocess is leaked, contradicting the claimed close-on-every-path.
The concrete conjunct evaluates the failing run: a frame raising after
one successful frame yields one write, no close, and a propagating
exception. -/
theorem encoder_close_accounting :
    (∀ (cfg : StabilityConfig) (stab : FilterState)
        (outcomes : List FrameOutcome),
      ((runIntervalGo cfg stab outcomes).1.count EncEvent.close) =
        (if (runIntervalGo cfg stab outcomes).2 then 0 else 1)) ∧
    runInterval {} [FrameOutcome.ok none, FrameOutcome.raise] =
      ([EncEvent.write], true) ∧
    ((runInterval {} [FrameOutcome.ok none, FrameOutcome.raise]).1.count
      EncEvent.close) = 0 := by
  refine ⟨?_, by decide, by decide⟩
  intro cfg stab outcomes
  induction outcomes generalizing stab with
  | nil => simp [runIntervalGo]
  | cons o rest ih =>
    cases hstop : stab.stopped with
    | true => simp [runIntervalGo, hstop]
    | false =>
      cases o with
      | raise => simp [runIntervalGo, hstop]
      | ok m =>
        cases m with
        | none =>
          simp only [runIntervalGo, hstop, Bool.false_eq_true, if_false]
          rw [List.count_cons]
          simp [ih stab]
        | some v =>
          simp only [runIntervalGo, hstop, Bool.false_eq_true, if_false]
          rw [List.count_cons]
          simp [ih ((add cfg stab v).2)]

end SegApp
